import Mathlib

/-!
Verification of the ProfCelerate submission-lifecycle core.

Shallow embedding of the submission lifecycle and record-synchronization
layer: the snake_case/camelCase naming transform applied at the persistence
boundary, the class/assignment mutation paths, and the submission-batch
pipeline of the assignment page.

Strings are modelled as lists of character codes (`List Nat`); records
crossing the persistence boundary are association lists from keys to a
JSON-like value type.
-/

namespace ProfCelerate

/-- ASCII uppercase letter test (codes 65–90). -/
def isUpperCode (n : Nat) : Bool := 65 ≤ n && n ≤ 90

/-- ASCII lowercase letter test (codes 97–122). -/
def isLowerCode (n : Nat) : Bool := 97 ≤ n && n ≤ 122

/-- ASCII digit test (codes 48–57). -/
def isDigitCode (n : Nat) : Bool := 48 ≤ n && n ≤ 57

/-- Uppercase an ASCII character code, as JavaScript `toUpperCase` does per character. -/
def toUpperCode (n : Nat) : Nat := if isLowerCode n then n - 32 else n

/-- Lowercase an ASCII character code, as JavaScript `toLowerCase` does per character. -/
def toLowerCode (n : Nat) : Nat := if isUpperCode n then n + 32 else n

/-- A string literal as a list of character codes. -/
def str (s : String) : List Nat := s.toList.map Char.toNat

/-- Modelled from the spec: the key direction of `toPersisted` in the naming
transform (`transformToSnakeCase` of `src/lib/caseConversion`, which is not
under `src/`): each uppercase letter of a camel-cased key is replaced by an
underscore followed by its lowercase form. -/
def camelToSnakeKey : List Nat → List Nat
  | [] => []
  | c :: rest =>
    if isUpperCode c then 95 :: toLowerCode c :: camelToSnakeKey rest
    else c :: camelToSnakeKey rest

/-- Modelled from the spec: the key direction of `toCanonical` in the naming
transform (`transformToCamelCase` of `src/lib/caseConversion`, which is not
under `src/`): each underscore of a snake-cased key is dropped and the
following character uppercased; a malformed trailing underscore passes
through unchanged. -/
def snakeToCamelKey : List Nat → List Nat
  | [] => []
  | [c] => [c]
  | c :: d :: rest =>
    if c = 95 then toUpperCode d :: snakeToCamelKey rest
    else c :: snakeToCamelKey (d :: rest)

/-- A canonical (camel-cased) key: every character is an ASCII letter or digit. -/
def validCamelKey (k : List Nat) : Bool :=
  k.all fun c => isUpperCode c || isLowerCode c || isDigitCode c

/-- A persisted (snake-cased) key known to the schema: lowercase letters and
digits, where every underscore is followed by a lowercase letter. -/
def validSnakeKey : List Nat → Bool
  | [] => true
  | [c] => isLowerCode c || isDigitCode c
  | c :: d :: rest =>
    if c = 95 then isLowerCode d && validSnakeKey (d :: rest)
    else (isLowerCode c || isDigitCode c) && validSnakeKey (d :: rest)

theorem isUpperCode_eq (n : Nat) : isUpperCode n = true ↔ 65 ≤ n ∧ n ≤ 90 := by
  simp [isUpperCode, Bool.and_eq_true]

theorem isLowerCode_eq (n : Nat) : isLowerCode n = true ↔ 97 ≤ n ∧ n ≤ 122 := by
  simp [isLowerCode, Bool.and_eq_true]

theorem isDigitCode_eq (n : Nat) : isDigitCode n = true ↔ 48 ≤ n ∧ n ≤ 57 := by
  simp [isDigitCode, Bool.and_eq_true]

theorem toUpperCode_lower {n : Nat} (h97 : 97 ≤ n) (h122 : n ≤ 122) :
    toUpperCode n = n - 32 := by
  unfold toUpperCode
  rw [if_pos ((isLowerCode_eq n).mpr ⟨h97, h122⟩)]

theorem toLowerCode_upper {n : Nat} (h65 : 65 ≤ n) (h90 : n ≤ 90) :
    toLowerCode n = n + 32 := by
  unfold toLowerCode
  rw [if_pos ((isUpperCode_eq n).mpr ⟨h65, h90⟩)]

theorem camelToSnakeKey_cons_upper {c : Nat} (h : isUpperCode c = true) (xs : List Nat) :
    camelToSnakeKey (c :: xs) = 95 :: toLowerCode c :: camelToSnakeKey xs := by
  simp only [camelToSnakeKey]
  rw [if_pos h]

theorem camelToSnakeKey_cons_not_upper {c : Nat} (h : isUpperCode c = false) (xs : List Nat) :
    camelToSnakeKey (c :: xs) = c :: camelToSnakeKey xs := by
  simp only [camelToSnakeKey]
  rw [if_neg (by simp [h])]

theorem snakeToCamelKey_underscore (d : Nat) (xs : List Nat) :
    snakeToCamelKey (95 :: d :: xs) = toUpperCode d :: snakeToCamelKey xs := by
  simp [snakeToCamelKey]

theorem snakeToCamelKey_cons_ne {c : Nat} (hc : c ≠ 95) (xs : List Nat) :
    snakeToCamelKey (c :: xs) = c :: snakeToCamelKey xs := by
  cases xs with
  | nil => rfl
  | cons d rest =>
    simp only [snakeToCamelKey]
    rw [if_neg hc]

theorem validSnakeKey_underscore (d : Nat) (rest : List Nat) :
    validSnakeKey (95 :: d :: rest) = (isLowerCode d && validSnakeKey (d :: rest)) := by
  simp [validSnakeKey]

theorem validSnakeKey_cons_ne {c : Nat} (hc : c ≠ 95) (d : Nat) (rest : List Nat) :
    validSnakeKey (c :: d :: rest) =
      ((isLowerCode c || isDigitCode c) && validSnakeKey (d :: rest)) := by
  simp only [validSnakeKey]
  rw [if_neg hc]

theorem validCamelKey_cons {c : Nat} {rest : List Nat} :
    validCamelKey (c :: rest) = true ↔
      (isUpperCode c = true ∨ isLowerCode c = true ∨ isDigitCode c = true) ∧
        validCamelKey rest = true := by
  simp [validCamelKey, List.all_cons, Bool.and_eq_true, Bool.or_eq_true, or_assoc]

theorem camelChar_ne_underscore {c : Nat}
    (h : isUpperCode c = true ∨ isLowerCode c = true ∨ isDigitCode c = true) :
    c ≠ 95 := by
  rcases h with h' | h' | h' <;>
    [rw [isUpperCode_eq] at h'; rw [isLowerCode_eq] at h'; rw [isDigitCode_eq] at h'] <;>
    omega

theorem lowerOrDigit_not_upper {c : Nat} (h : (isLowerCode c || isDigitCode c) = true) :
    isUpperCode c = false := by
  rw [Bool.or_eq_true] at h
  rw [← Bool.not_eq_true, isUpperCode_eq]
  rcases h with h' | h' <;> [rw [isLowerCode_eq] at h'; rw [isDigitCode_eq] at h'] <;> omega

theorem lowerOrDigit_ne_underscore {c : Nat} (h : (isLowerCode c || isDigitCode c) = true) :
    c ≠ 95 := by
  rw [Bool.or_eq_true] at h
  rcases h with h' | h' <;> [rw [isLowerCode_eq] at h'; rw [isDigitCode_eq] at h'] <;> omega

/-- Two-step structural induction on lists, matching the recursion pattern of
`snakeToCamelKey`. -/
theorem twoStepInduction {P : List Nat → Prop} (h0 : P []) (h1 : ∀ c, P [c])
    (h2 : ∀ c d rest, P rest → P (d :: rest) → P (c :: d :: rest)) :
    ∀ k, P k
  | [] => h0
  | [c] => h1 c
  | c :: d :: rest =>
    h2 c d rest (twoStepInduction h0 h1 h2 rest) (twoStepInduction h0 h1 h2 (d :: rest))

theorem snakeToCamelKey_camelToSnakeKey (k : List Nat) (h : validCamelKey k = true) :
    snakeToCamelKey (camelToSnakeKey k) = k := by
  induction k with
  | nil => rfl
  | cons c rest ih =>
    rw [validCamelKey_cons] at h
    by_cases hc : isUpperCode c = true
    · have hb := (isUpperCode_eq c).mp hc
      rw [camelToSnakeKey_cons_upper hc, toLowerCode_upper hb.1 hb.2,
        snakeToCamelKey_underscore, toUpperCode_lower (by omega) (by omega),
        ih h.2]
      congr 1
    · have hne : c ≠ 95 := camelChar_ne_underscore h.1
      rw [camelToSnakeKey_cons_not_upper (by simpa using hc),
        snakeToCamelKey_cons_ne hne, ih h.2]

theorem validSnakeKey_tail {c : Nat} {rest : List Nat} (hc : c ≠ 95)
    (h : validSnakeKey (c :: rest) = true) : validSnakeKey rest = true := by
  cases rest with
  | nil => rfl
  | cons d rest' =>
    rw [validSnakeKey_cons_ne hc, Bool.and_eq_true] at h
    exact h.2

theorem camelToSnakeKey_snakeToCamelKey (k : List Nat) (h : validSnakeKey k = true) :
    camelToSnakeKey (snakeToCamelKey k) = k := by
  induction k using twoStepInduction with
  | h0 => rfl
  | h1 c =>
    unfold validSnakeKey at h
    have hnu : isUpperCode c = false := lowerOrDigit_not_upper h
    show camelToSnakeKey [c] = [c]
    rw [show ([c] : List Nat) = c :: [] from rfl, camelToSnakeKey_cons_not_upper hnu]
    rfl
  | h2 c d rest ih1 ih2 =>
    by_cases hc : c = 95
    · subst hc
      rw [validSnakeKey_underscore, Bool.and_eq_true] at h
      have hd := (isLowerCode_eq d).mp h.1
      have hrest : validSnakeKey rest = true :=
        validSnakeKey_tail (by omega) h.2
      rw [snakeToCamelKey_underscore, toUpperCode_lower hd.1 hd.2,
        camelToSnakeKey_cons_upper (by rw [isUpperCode_eq]; omega),
        toLowerCode_upper (by omega) (by omega), ih1 hrest]
      congr 2
      omega
    · rw [validSnakeKey_cons_ne hc, Bool.and_eq_true] at h
      rw [snakeToCamelKey_cons_ne hc,
        camelToSnakeKey_cons_not_upper (lowerOrDigit_not_upper h.1), ih2 h.2]

theorem snakeToCamelKey_id (k : List Nat) (h : validCamelKey k = true) :
    snakeToCamelKey k = k := by
  induction k with
  | nil => rfl
  | cons c rest ih =>
    rw [validCamelKey_cons] at h
    rw [snakeToCamelKey_cons_ne (camelChar_ne_underscore h.1), ih h.2]

theorem validCamelKey_snakeToCamelKey (k : List Nat) (h : validSnakeKey k = true) :
    validCamelKey (snakeToCamelKey k) = true := by
  induction k using twoStepInduction with
  | h0 => rfl
  | h1 c =>
    unfold validSnakeKey at h
    rw [Bool.or_eq_true] at h
    show validCamelKey [c] = true
    rw [show ([c] : List Nat) = c :: [] from rfl, validCamelKey_cons]
    exact ⟨by tauto, rfl⟩
  | h2 c d rest ih1 ih2 =>
    by_cases hc : c = 95
    · subst hc
      rw [validSnakeKey_underscore, Bool.and_eq_true] at h
      have hd := (isLowerCode_eq d).mp h.1
      have hrest : validSnakeKey rest = true :=
        validSnakeKey_tail (by omega) h.2
      rw [snakeToCamelKey_underscore, toUpperCode_lower hd.1 hd.2, validCamelKey_cons]
      exact ⟨Or.inl (by rw [isUpperCode_eq]; omega), ih1 hrest⟩
    · rw [validSnakeKey_cons_ne hc, Bool.and_eq_true, Bool.or_eq_true] at h
      rw [snakeToCamelKey_cons_ne hc, validCamelKey_cons]
      exact ⟨by tauto, ih2 h.2⟩

/-- A JSON-like value crossing the persistence boundary: scalar strings,
numbers, booleans, null, nested records (association lists keyed by
character-code lists) and sequences. -/
inductive Value where
  | vStr : List Nat → Value
  | vNum : Nat → Value
  | vBool : Bool → Value
  | vNull : Value
  | vObj : List (List Nat × Value) → Value
  | vArr : List Value → Value

/-- A record at the persistence boundary: an association list from keys to values. -/
abbrev Rec := List (List Nat × Value)

mutual
/-- Modelled from the spec: the recursive traversal shared by
`transformToCamelCase` and `transformToSnakeCase` of `src/lib/caseConversion`
(not under `src/`): the key transform `f` is applied to every key of every
nested record, recursively through records and sequences, and never to
scalar string contents. -/
def transformValue (f : List Nat → List Nat) : Value → Value
  | .vStr s => .vStr s
  | .vNum n => .vNum n
  | .vBool b => .vBool b
  | .vNull => .vNull
  | .vObj fields => .vObj (transformFields f fields)
  | .vArr es => .vArr (transformElems f es)

/-- Key-transforming traversal of a record's field list. -/
def transformFields (f : List Nat → List Nat) : Rec → Rec
  | [] => []
  | (k, v) :: rest => (f k, transformValue f v) :: transformFields f rest

/-- Key-transforming traversal of a sequence of values. -/
def transformElems (f : List Nat → List Nat) : List Value → List Value
  | [] => []
  | v :: rest => transformValue f v :: transformElems f rest
end

/-- Modelled from the spec: `toCanonical` — convert every key of a persisted
record to the camel-cased canonical convention. -/
def transformToCamelCase (v : Value) : Value := transformValue snakeToCamelKey v

/-- Modelled from the spec: `toPersisted` — convert every key of a canonical
record to the snake-cased persisted convention. -/
def transformToSnakeCase (v : Value) : Value := transformValue camelToSnakeKey v

mutual
/-- Every key of every nested record of the value satisfies `p`. -/
def validKeysValue (p : List Nat → Bool) : Value → Bool
  | .vStr _ => true
  | .vNum _ => true
  | .vBool _ => true
  | .vNull => true
  | .vObj fields => validKeysFields p fields
  | .vArr es => validKeysElems p es

/-- Every key of the field list (and of its nested records) satisfies `p`. -/
def validKeysFields (p : List Nat → Bool) : Rec → Bool
  | [] => true
  | (k, v) :: rest => p k && validKeysValue p v && validKeysFields p rest

/-- Every key of every record nested in the sequence satisfies `p`. -/
def validKeysElems (p : List Nat → Bool) : List Value → Bool
  | [] => true
  | v :: rest => validKeysValue p v && validKeysElems p rest
end

/-- A valid canonical record value: all keys camel-cased alphanumerics. -/
def validCamelValue (v : Value) : Bool := validKeysValue validCamelKey v

/-- A persisted record value containing only keys known to the schema. -/
def validSnakeValue (v : Value) : Bool := validKeysValue validSnakeKey v

mutual
theorem transformValue_transformValue (f g : List Nat → List Nat) (p : List Nat → Bool)
    (hfg : ∀ k, p k = true → g (f k) = k) :
    ∀ v, validKeysValue p v = true → transformValue g (transformValue f v) = v
  | .vStr _, _ => rfl
  | .vNum _, _ => rfl
  | .vBool _, _ => rfl
  | .vNull, _ => rfl
  | .vObj fields, h => by
    simp only [transformValue]
    exact congrArg Value.vObj (transformFields_transformFields f g p hfg fields h)
  | .vArr es, h => by
    simp only [transformValue]
    exact congrArg Value.vArr (transformElems_transformElems f g p hfg es h)

theorem transformFields_transformFields (f g : List Nat → List Nat) (p : List Nat → Bool)
    (hfg : ∀ k, p k = true → g (f k) = k) :
    ∀ l, validKeysFields p l = true → transformFields g (transformFields f l) = l
  | [], _ => rfl
  | (k, v) :: rest, h => by
    simp only [validKeysFields, Bool.and_eq_true] at h
    simp only [transformFields]
    rw [hfg k h.1.1, transformValue_transformValue f g p hfg v h.1.2,
      transformFields_transformFields f g p hfg rest h.2]

theorem transformElems_transformElems (f g : List Nat → List Nat) (p : List Nat → Bool)
    (hfg : ∀ k, p k = true → g (f k) = k) :
    ∀ l, validKeysElems p l = true → transformElems g (transformElems f l) = l
  | [], _ => rfl
  | v :: rest, h => by
    simp only [validKeysElems, Bool.and_eq_true] at h
    simp only [transformElems]
    rw [transformValue_transformValue f g p hfg v h.1,
      transformElems_transformElems f g p hfg rest h.2]
end

mutual
theorem transformValue_id (f : List Nat → List Nat) (p : List Nat → Bool)
    (hf : ∀ k, p k = true → f k = k) :
    ∀ v, validKeysValue p v = true → transformValue f v = v
  | .vStr _, _ => rfl
  | .vNum _, _ => rfl
  | .vBool _, _ => rfl
  | .vNull, _ => rfl
  | .vObj fields, h => by
    simp only [transformValue]
    exact congrArg Value.vObj (transformFields_id f p hf fields h)
  | .vArr es, h => by
    simp only [transformValue]
    exact congrArg Value.vArr (transformElems_id f p hf es h)

theorem transformFields_id (f : List Nat → List Nat) (p : List Nat → Bool)
    (hf : ∀ k, p k = true → f k = k) :
    ∀ l, validKeysFields p l = true → transformFields f l = l
  | [], _ => rfl
  | (k, v) :: rest, h => by
    simp only [validKeysFields, Bool.and_eq_true] at h
    simp only [transformFields]
    rw [hf k h.1.1, transformValue_id f p hf v h.1.2, transformFields_id f p hf rest h.2]

theorem transformElems_id (f : List Nat → List Nat) (p : List Nat → Bool)
    (hf : ∀ k, p k = true → f k = k) :
    ∀ l, validKeysElems p l = true → transformElems f l = l
  | [], _ => rfl
  | v :: rest, h => by
    simp only [validKeysElems, Bool.and_eq_true] at h
    simp only [transformElems]
    rw [transformValue_id f p hf v h.1, transformElems_id f p hf rest h.2]
end

/-! Records at the persistence boundary. -/

/-- Look up the value of a key in a record (first match). -/
def getVal : Rec → List Nat → Option Value
  | [], _ => none
  | (k', v) :: rest, k => if k' = k then some v else getVal rest k

/-- The keys of a record, in order. -/
def keys (r : Rec) : List (List Nat) := r.map Prod.fst

/-- Look up a string field. -/
def getStr (r : Rec) (k : List Nat) : Option (List Nat) :=
  match getVal r k with
  | some (.vStr s) => some s
  | _ => none

/-- Look up a numeric field. -/
def getNum (r : Rec) (k : List Nat) : Option Nat :=
  match getVal r k with
  | some (.vNum n) => some n
  | _ => none

/-- The row produced by a partial UPDATE scoped to one row: every column
named by the payload takes the payload's value, every other column keeps
its previous value. Models the persistence boundary's
`update(payload).eq('id', id).select().single()` read-back. -/
def mergeUpdate (row payload : Rec) : Rec :=
  row.map fun kv =>
    match getVal payload kv.1 with
    | some v => (kv.1, v)
    | none => kv

theorem keys_mergeUpdate (row payload : Rec) : keys (mergeUpdate row payload) = keys row := by
  induction row with
  | nil => rfl
  | cons kv rest ih =>
    simp only [mergeUpdate, keys, List.map_cons] at ih ⊢
    cases hv : getVal payload kv.1 <;> simp [hv, ih]

theorem getVal_mergeUpdate_none {payload : Rec} {k : List Nat}
    (h : getVal payload k = none) (row : Rec) :
    getVal (mergeUpdate row payload) k = getVal row k := by
  induction row with
  | nil => rfl
  | cons kv rest ih =>
    simp only [mergeUpdate, List.map_cons]
    by_cases hk : kv.1 = k
    · subst hk
      cases hv : getVal payload kv.1 with
      | none => simp [getVal, hv]
      | some v => rw [h] at hv; exact absurd hv (by simp)
    · cases hv : getVal payload kv.1 <;>
        simpa [getVal, hv, hk] using ih

theorem getVal_mergeUpdate_some {payload : Rec} {k : List Nat} {v : Value}
    (h : getVal payload k = some v) (row : Rec) (hk : k ∈ keys row) :
    getVal (mergeUpdate row payload) k = some v := by
  induction row with
  | nil => simp [keys] at hk
  | cons kv rest ih =>
    simp only [mergeUpdate, List.map_cons]
    by_cases hke : kv.1 = k
    · subst hke
      rw [h]
      simp [getVal]
    · simp only [keys, List.map_cons, List.mem_cons] at hk
      rcases hk with hk | hk
      · exact absurd hk.symm hke
      · cases hv : getVal payload kv.1 <;>
          simpa [getVal, hv, hke] using ih hk

/-! EditClassDialog (`src/unnamed/part_000`). -/

/-- The fixed department enumeration of the class schemas. -/
def departmentOptions : List (List Nat) :=
  [str "Language", str "Computer Science", str "Mathematics", str "Physics",
   str "Chemistry", str "Biology", str "Engineering"]

/-- The proposed payload of the class edit form, one string per field. -/
structure RawClassForm where
  title : List Nat
  description : List Nat
  department : List Nat
  code : List Nat
  schedule : List Nat
  term : List Nat
  status : List Nat
deriving DecidableEq

/-- A class edit payload that passed `editClassSchema` (fields normalized). -/
structure ClassForm where
  title : List Nat
  description : List Nat
  department : List Nat
  code : List Nat
  schedule : List Nat
  term : List Nat
  status : List Nat
deriving DecidableEq

/-- JavaScript whitespace trimmed by `String.prototype.trim` (the common codes). -/
def isSpaceCode (c : Nat) : Bool := c = 32 || c = 9 || c = 10 || c = 13

/-- Trim leading and trailing whitespace, as zod's `.trim()` transform does. -/
def trimCodes (s : List Nat) : List Nat :=
  ((s.dropWhile isSpaceCode).reverse.dropWhile isSpaceCode).reverse

/-- One character of the `/^[A-Z0-9]+$/i` class-code pattern. -/
def isAlnumCode (c : Nat) : Bool := isUpperCode c || isLowerCode c || isDigitCode c

/-- The field-level violations reported by `editClassSchema`: each failing
field contributes its name. Checks mirror the zod chains: length bounds are
checked before the `.trim()` transform, enumerated fields against their
closed sets. -/
def editClassSchemaErrors (f : RawClassForm) : List (List Nat) :=
  (if 3 ≤ f.title.length ∧ f.title.length ≤ 100 then [] else [str "title"]) ++
  (if 10 ≤ f.description.length ∧ f.description.length ≤ 500 then []
   else [str "description"]) ++
  (if f.department ∈ departmentOptions then [] else [str "department"]) ++
  (if 2 ≤ f.code.length ∧ f.code.length ≤ 10 ∧ f.code.all isAlnumCode then []
   else [str "code"]) ++
  (if 1 ≤ f.schedule.length then [] else [str "schedule"]) ++
  (if 1 ≤ f.term.length then [] else [str "term"]) ++
  (if f.status = str "active" ∨ f.status = str "inactive" then [] else [str "status"])

/-- The zod `editClassSchema`: synchronous, pure validation producing either
the normalized (trimmed) payload or the list of field violations. -/
def editClassSchema (f : RawClassForm) : Except (List (List Nat)) ClassForm :=
  if editClassSchemaErrors f = [] then
    .ok { title := trimCodes f.title, description := trimCodes f.description,
          department := f.department, code := trimCodes f.code,
          schedule := trimCodes f.schedule, term := trimCodes f.term,
          status := f.status }
  else .error (editClassSchemaErrors f)

/-- JavaScript `toUpperCase` on an ASCII string. -/
def upperString (s : List Nat) : List Nat := s.map toUpperCode

/-- The update object built by `EditClassDialog.handleSubmit` and passed to
`supabase.from('classes').update(...)`: the validated fields, the code
upper-cased, and `updated_at` set to the current time. Keys are written
literally (no naming transform on this path). -/
def classUpdatePayload (fd : ClassForm) (now : List Nat) : Rec :=
  [ (str "title", .vStr fd.title),
    (str "description", .vStr fd.description),
    (str "department", .vStr fd.department),
    (str "code", .vStr (upperString fd.code)),
    (str "schedule", .vStr fd.schedule),
    (str "term", .vStr fd.term),
    (str "status", .vStr fd.status),
    (str "updated_at", .vStr now) ]

/-- Outcome of a record mutation path: the update payloads issued to the
persistence boundary, the persisted row afterwards, and the value passed to
the update listener (`onClassUpdated` / `onAssignmentUpdated`), if any. -/
structure MutationResult where
  calls : List Rec
  row : Rec
  listener : Option Rec

namespace EditClassDialog

/-- `handleSubmit` of `EditClassDialog`: build the update object, submit it
scoped to the class id, and on success pass the returned row to
`onClassUpdated` as is; on a persistence failure nothing is mutated and the
listener is not called. -/
def handleSubmit (fd : ClassForm) (row : Rec) (now : List Nat) (updateOk : Bool) :
    MutationResult :=
  let payload := classUpdatePayload fd now
  if updateOk then
    { calls := [payload], row := mergeUpdate row payload,
      listener := some (mergeUpdate row payload) }
  else
    { calls := [payload], row := row, listener := none }

end EditClassDialog

/-- The class edit flow: `form.handleSubmit(handleSubmit)` runs the zod
resolver first and only invokes `handleSubmit` when validation passes; a
validation failure renders field errors and issues nothing. -/
def editClassFlow (raw : RawClassForm) (row : Rec) (now : List Nat) (updateOk : Bool) :
    MutationResult :=
  match editClassSchema raw with
  | .error _ => { calls := [], row := row, listener := none }
  | .ok fd => EditClassDialog.handleSubmit fd row now updateOk

/-! EditGradingCriteriaDialog (`assignment-details.tsx`). -/

/-- The update object built by `EditGradingCriteriaDialog.handleSubmit`:
`transformToSnakeCase` applied to `grading_criteria` and `updated_at`. -/
def gradingCriteriaPayload (crit now : List Nat) : Rec :=
  transformFields camelToSnakeKey
    [ (str "grading_criteria", .vStr crit),
      (str "updated_at", .vStr now) ]

namespace EditGradingCriteriaDialog

/-- `handleSubmit` of `EditGradingCriteriaDialog`: submit the two-field
update scoped to the assignment id, read the row back, convert it with
`transformToCamelCase` and pass it to `onAssignmentUpdated`; on a
persistence failure nothing is mutated and the listener is not called. -/
def handleSubmit (crit : List Nat) (row : Rec) (now : List Nat) (updateOk : Bool) :
    MutationResult :=
  let payload := gradingCriteriaPayload crit now
  if updateOk then
    { calls := [payload], row := mergeUpdate row payload,
      listener := some (transformFields snakeToCamelKey (mergeUpdate row payload)) }
  else
    { calls := [payload], row := row, listener := none }

end EditGradingCriteriaDialog

/-- Modelled from the spec: the general assignment edit path (the
`EditAssignmentDialog` component, which is not under `src/`) submits the
assignment metadata fields and the refreshed `updated_at`, and never the
`grading_criteria` field. -/
def editAssignmentPayload (title description ty : List Nat) (points : Nat)
    (now : List Nat) : Rec :=
  [ (str "title", .vStr title),
    (str "description", .vStr description),
    (str "type", .vStr ty),
    (str "points", .vNum points),
    (str "updated_at", .vStr now) ]

/-! AssignmentPage (`assignment-page.tsx`). -/

/-- The `SubmissionBatch` interface of the assignment page. -/
structure SubmissionBatch where
  id : List Nat
  name : List Nat
  uploadedAt : Nat
  status : List Nat
  fileCount : Nat
deriving DecidableEq

/-- The page's committed view: the assignment record and the batch list. -/
structure PageState where
  assignment : Option Rec
  submissions : List SubmissionBatch

/-- Build a `SubmissionBatch` from a persisted submission row, as both
`fetchAssignmentData` and `handleSubmitFiles` do: transform the row to
camelCase, then take `id`, `batchName || 'Batch ' + id`, `createdAt`,
`status`, and `fileCount || 0`. -/
def toBatch (row : Rec) : SubmissionBatch :=
  let camelCaseSubmission := transformFields snakeToCamelKey row
  let id := (getStr camelCaseSubmission (str "id")).getD []
  { id := id
  , name :=
      match getStr camelCaseSubmission (str "batchName") with
      | some s => if s = [] then str "Batch " ++ id else s
      | none => str "Batch " ++ id
  , uploadedAt := (getNum camelCaseSubmission (str "createdAt")).getD 0
  , status := (getStr camelCaseSubmission (str "status")).getD []
  , fileCount := (getNum camelCaseSubmission (str "fileCount")).getD 0 }

/-- JavaScript truthiness of a record field, as used by the
`!transformedAssignment.createdAt` checks. -/
def falsyField (r : Rec) (k : List Nat) : Bool :=
  match getVal r k with
  | some (.vStr s) => s.isEmpty
  | some (.vNum n) => n == 0
  | some (.vBool b) => !b
  | some .vNull => true
  | some (.vObj _) => false
  | some (.vArr _) => false
  | none => true

/-- JavaScript property assignment: overwrite the key if present, append it
otherwise. -/
def setField (r : Rec) (k : List Nat) (v : Value) : Rec :=
  if k ∈ keys r then r.map fun kv => if kv.1 = k then (k, v) else kv
  else r ++ [(k, v)]

/-- The date-defaulting step of `fetchAssignmentData`: when `createdAt` or
`updatedAt` is missing from the transformed assignment, both are set to the
current time. -/
def fixDates (r : Rec) (now : List Nat) : Rec :=
  if falsyField r (str "createdAt") || falsyField r (str "updatedAt") then
    setField (setField r (str "createdAt") (.vStr now)) (str "updatedAt") (.vStr now)
  else r

/-- `fetchAssignmentData`: fetch the assignment row; on success transform it
and commit it with `setAssignment`, then fetch the submissions and, on
success, commit the transformed batch list with `setSubmissions`. Any thrown
error lands in the single catch block, which changes no state. The two
fetches are sequential: the assignment is committed before the submissions
fetch resolves. -/
def fetchAssignmentData (st : PageState) (now : List Nat)
    (assignRes : Except Unit (Option Rec)) (subsRes : Except Unit (List Rec)) :
    PageState :=
  match assignRes with
  | .error _ => st
  | .ok none => st
  | .ok (some data) =>
    let transformedAssignment := fixDates (transformFields snakeToCamelKey data) now
    let st1 := { st with assignment := some transformedAssignment }
    match subsRes with
    | .error _ => st1
    | .ok submissionsData =>
      { st1 with submissions := submissionsData.map toBatch }

/-- The `created_at` column of a submission row. -/
def createdAtOf (r : Rec) : Nat := (getNum r (str "created_at")).getD 0

/-- `a` sorts no later than `b` under `order('created_at', ascending: false)`. -/
def submissionOrder (a b : Rec) : Prop := createdAtOf b ≤ createdAtOf a

instance : DecidableRel submissionOrder := fun _ _ => Nat.decLe _ _

instance : IsTotal Rec submissionOrder := ⟨fun _ _ => Nat.le_total _ _⟩

instance : IsTrans Rec submissionOrder := ⟨fun _ _ _ hab hbc => Nat.le_trans hbc hab⟩

/-- The submissions select of `fetchAssignmentData`: the store's rows for the
assignment, ordered by `created_at` descending and by nothing else — rows
with equal `created_at` keep the store's order (modelled by a stable sort of
the store's row sequence). -/
def submissionsQuery (store : List Rec) : List Rec :=
  List.insertionSort submissionOrder store

/-- The batch list observable after a fetch from a given store state. -/
def listBatches (store : List Rec) : List SubmissionBatch :=
  (submissionsQuery store).map toBatch

/-- The insert object built by `handleSubmitFiles` and passed to
`supabase.from('submissions').insert(...)`: `transformToSnakeCase` of the
batch fields, with `status` fixed at `'grading'` and `file_count` the number
of uploaded files. -/
def submissionPayload (assignmentId batchName : List Nat) (fileCount : Nat) : Rec :=
  transformFields camelToSnakeKey
    [ (str "assignment_id", .vStr assignmentId),
      (str "batch_name", .vStr batchName),
      (str "file_count", .vNum fileCount),
      (str "status", .vStr (str "grading")) ]

/-- The row the persistence layer returns for an insert: the payload plus the
store-assigned identifier and creation time. -/
def insertedRow (payload : Rec) (id : List Nat) (createdAt : Nat) : Rec :=
  (str "id", .vStr id) :: (payload ++ [(str "created_at", .vNum createdAt)])

/-- Outcome of `handleSubmitFiles`: the new page state and the insert
payloads issued to the persistence boundary. -/
structure UploadResult where
  state : PageState
  inserts : List Rec

/-- `handleSubmitFiles`: build the snake-cased submission record, insert it,
transform the returned row and prepend the new batch to the committed list;
a persistence failure changes no state. There is no check on the number of
files. -/
def handleSubmitFiles (st : PageState) (assignmentId : List Nat) (files : Nat)
    (batchName : List Nat) (insertRes : Except Unit Rec) : UploadResult :=
  let submissionData := submissionPayload assignmentId batchName files
  match insertRes with
  | .error _ => { state := st, inserts := [submissionData] }
  | .ok submission =>
    let newBatch := toBatch submission
    { state := { st with submissions := newBatch :: st.submissions }
    , inserts := [submissionData] }

/-- `handleAssignmentUpdated`: transform the published assignment with
`transformToCamelCase` (a second time, for records already published in
canonical form) and commit it. -/
def handleAssignmentUpdated (st : PageState) (updatedAssignment : Rec) : PageState :=
  { st with assignment := some (transformFields snakeToCamelKey updatedAssignment) }

/-! Shared helper lemmas and concrete records. -/

theorem keys_transformFields (f : List Nat → List Nat) (r : Rec) :
    keys (transformFields f r) = (keys r).map f := by
  induction r with
  | nil => rfl
  | cons kv rest ih =>
    obtain ⟨k, v⟩ := kv
    simp only [transformFields, keys, List.map_cons] at ih ⊢
    rw [ih]

theorem validKeysFields_keys {p : List Nat → Bool} {r : Rec}
    (h : validKeysFields p r = true) : ∀ k ∈ keys r, p k = true := by
  induction r with
  | nil => simp [keys]
  | cons kv rest ih =>
    obtain ⟨k, v⟩ := kv
    simp only [validKeysFields, Bool.and_eq_true] at h
    simp only [keys, List.map_cons, List.mem_cons]
    rintro k' (rfl | hk')
    · exact h.1.1
    · exact ih h.2 k' hk'

theorem gradingCriteriaPayload_eq (crit now : List Nat) :
    gradingCriteriaPayload crit now =
      [(str "grading_criteria", .vStr crit), (str "updated_at", .vStr now)] := rfl

theorem submissionPayload_eq (aid name : List Nat) (n : Nat) :
    submissionPayload aid name n =
      [ (str "assignment_id", .vStr aid), (str "batch_name", .vStr name),
        (str "file_count", .vNum n), (str "status", .vStr (str "grading")) ] := rfl

/-- A canonical assignment record, as held in memory by the page. -/
def assignmentCanonicalExample : Value :=
  .vObj [ (str "id", .vStr (str "a1")),
          (str "title", .vStr (str "Essay 1")),
          (str "gradingCriteria", .vStr (str "Rubric")),
          (str "points", .vNum 100),
          (str "createdAt", .vStr (str "T0")),
          (str "updatedAt", .vStr (str "T0")),
          (str "batches", .vArr [.vObj [(str "fileCount", .vNum 3)]]) ]

/-- A persisted submission row with only schema-known snake-cased keys. -/
def submissionPersistedExample : Value :=
  .vObj [ (str "id", .vStr (str "s1")),
          (str "assignment_id", .vStr (str "a1")),
          (str "batch_name", .vStr (str "Batch one")),
          (str "file_count", .vNum 3),
          (str "status", .vStr (str "grading")),
          (str "created_at", .vNum 17) ]

/-- A persisted class row as stored in the `classes` table. -/
def classRowExample : Rec :=
  [ (str "id", .vStr (str "c1")),
    (str "title", .vStr (str "Algebra")),
    (str "description", .vStr (str "Linear equations basics")),
    (str "department", .vStr (str "Mathematics")),
    (str "code", .vStr (str "MATH1")),
    (str "schedule", .vStr (str "MWF")),
    (str "term", .vStr (str "Fall")),
    (str "status", .vStr (str "active")),
    (str "created_at", .vStr (str "T0")),
    (str "updated_at", .vStr (str "T0")) ]

/-- A validated class edit form whose code was typed lower-case. -/
def classFormExample : ClassForm :=
  { title := str "Algebra", description := str "Linear equations basics",
    department := str "Mathematics", code := str "cs101",
    schedule := str "MWF", term := str "Fall", status := str "active" }

/-- A raw class edit form whose title has length 2 and is otherwise valid. -/
def rawShortTitleExample : RawClassForm :=
  { title := str "ab", description := str "Linear equations basics",
    department := str "Mathematics", code := str "cs101",
    schedule := str "MWF", term := str "Fall", status := str "active" }

/-- A persisted assignment row as stored in the `assignments` table. -/
def assignmentRowExample : Rec :=
  [ (str "id", .vStr (str "a1")),
    (str "title", .vStr (str "Essay 1")),
    (str "description", .vStr (str "Write an essay")),
    (str "type", .vStr (str "voice")),
    (str "points", .vNum 100),
    (str "grading_criteria", .vStr (str "Old rubric")),
    (str "created_at", .vStr (str "T0")),
    (str "updated_at", .vStr (str "T0")) ]

/-- A committed page view holding an assignment titled Old. -/
def pageStateExample : PageState :=
  { assignment := some [(str "title", .vStr (str "Old"))], submissions := [] }

/-- A fresh assignment row titled New, to be fetched over the old view. -/
def assignmentRowNew : Rec :=
  [ (str "id", .vStr (str "a1")), (str "title", .vStr (str "New")),
    (str "created_at", .vStr (str "T0")), (str "updated_at", .vStr (str "T0")) ]

/-- A submission row with identifier a, created at time 5. -/
def submissionRowA : Rec :=
  [ (str "id", .vStr (str "a")), (str "batch_name", .vStr (str "Alpha")),
    (str "file_count", .vNum 1), (str "status", .vStr (str "grading")),
    (str "created_at", .vNum 5) ]

/-- A submission row with identifier b, created at the same time 5. -/
def submissionRowB : Rec :=
  [ (str "id", .vStr (str "b")), (str "batch_name", .vStr (str "Beta")),
    (str "file_count", .vNum 2), (str "status", .vStr (str "grading")),
    (str "created_at", .vNum 5) ]

/-- Submission rows created at times 1, 2 and 3. -/
def submissionRowT1 : Rec :=
  [ (str "id", .vStr (str "s1")), (str "batch_name", .vStr (str "One")),
    (str "file_count", .vNum 1), (str "status", .vStr (str "grading")),
    (str "created_at", .vNum 1) ]

/-- Submission row created at time 2. -/
def submissionRowT2 : Rec :=
  [ (str "id", .vStr (str "s2")), (str "batch_name", .vStr (str "Two")),
    (str "file_count", .vNum 1), (str "status", .vStr (str "completed")),
    (str "created_at", .vNum 2) ]

/-- Submission row created at time 3. -/
def submissionRowT3 : Rec :=
  [ (str "id", .vStr (str "s3")), (str "batch_name", .vStr (str "Three")),
    (str "file_count", .vNum 4), (str "status", .vStr (str "grading")),
    (str "created_at", .vNum 3) ]


/-- The canonical (camel-cased) field list of the example assignment row, as
the criteria dialog publishes it. -/
def assignmentRowExampleCanonicalFields : Rec :=
  transformFields snakeToCamelKey assignmentRowExample

/-! Claims. -/

/-- C3: the naming transform used at every boundary crossing is a total,
lossless round trip: `transformToCamelCase (transformToSnakeCase x) = x` for
every valid canonical record `x`, and
`transformToSnakeCase (transformToCamelCase p) = p` for every persisted
record `p` containing only keys known to the schema. -/
theorem naming_transform_round_trip :
    (∀ x : Value, validCamelValue x = true →
      transformToCamelCase (transformToSnakeCase x) = x) ∧
    (∀ p : Value, validSnakeValue p = true →
      transformToSnakeCase (transformToCamelCase p) = p) := by
  constructor
  · intro x hx
    exact transformValue_transformValue camelToSnakeKey snakeToCamelKey validCamelKey
      (fun k hk => snakeToCamelKey_camelToSnakeKey k hk) x hx
  · intro p hp
    exact transformValue_transformValue snakeToCamelKey camelToSnakeKey validSnakeKey
      (fun k hk => camelToSnakeKey_snakeToCamelKey k hk) p hp

/-- Witness for C3: the round trip evaluated on a concrete canonical
assignment record and a concrete persisted submission row. -/
theorem naming_transform_round_trip_witness :
    validCamelValue assignmentCanonicalExample = true ∧
    transformToCamelCase (transformToSnakeCase assignmentCanonicalExample)
      = assignmentCanonicalExample ∧
    validSnakeValue submissionPersistedExample = true ∧
    transformToSnakeCase (transformToCamelCase submissionPersistedExample)
      = submissionPersistedExample :=
  ⟨by decide, naming_transform_round_trip.1 assignmentCanonicalExample (by decide),
   by decide, naming_transform_round_trip.2 submissionPersistedExample (by decide)⟩

/-- C10: `transformToCamelCase` is the identity on records already in
canonical form (hence idempotent), and `handleAssignmentUpdated`, which
applies it a second time to the already-canonical record published by the
criteria-edit dialog, therefore commits that record unchanged. -/
theorem transformToCamelCase_idempotent :
    (∀ v : Value, validCamelValue v = true → transformToCamelCase v = v) ∧
    (∀ v : Value, validCamelValue v = true →
      transformToCamelCase (transformToCamelCase v) = transformToCamelCase v) ∧
    (∀ st : PageState, ∀ a : Rec, validKeysFields validCamelKey a = true →
      (handleAssignmentUpdated st a).assignment = some a) := by
  have hid : ∀ v : Value, validCamelValue v = true → transformToCamelCase v = v :=
    fun v hv =>
      transformValue_id snakeToCamelKey validCamelKey
        (fun k hk => snakeToCamelKey_id k hk) v hv
  refine ⟨hid, fun v hv => congrArg transformToCamelCase (hid v hv), fun st a ha => ?_⟩
  simp only [handleAssignmentUpdated]
  rw [transformFields_id snakeToCamelKey validCamelKey
    (fun k hk => snakeToCamelKey_id k hk) a ha]

/-- Witness for C10: idempotence evaluated on the concrete canonical
assignment record, and the double transform of the update handler on its
field list. -/
theorem transformToCamelCase_idempotent_witness :
    validCamelValue assignmentCanonicalExample = true ∧
    transformToCamelCase assignmentCanonicalExample = assignmentCanonicalExample ∧
    (handleAssignmentUpdated pageStateExample assignmentRowExampleCanonicalFields).assignment
      = some assignmentRowExampleCanonicalFields :=
  ⟨by decide, transformToCamelCase_idempotent.1 assignmentCanonicalExample (by decide),
   transformToCamelCase_idempotent.2.2 pageStateExample
     assignmentRowExampleCanonicalFields (by decide)⟩

/-- C1 (corrected): when the assignment fetch succeeds and the batch fetch
fails, the previously committed batch list is retained and no partial batch
data is committed, and when the assignment fetch fails (or finds no row)
nothing at all changes — but the new assignment record has already been
committed before the batch fetch resolves, so the composed view
new-assignment-with-old-batches is observable. -/
theorem refresh_batch_failure_retains_batches :
    ∀ st : PageState, ∀ now : List Nat, ∀ data : Rec, ∀ e : Unit,
    ∀ sf : Except Unit (List Rec),
    (fetchAssignmentData st now (.ok (some data)) (.error e)).submissions
      = st.submissions ∧
    (fetchAssignmentData st now (.ok (some data)) (.error e)).assignment
      = some (fixDates (transformFields snakeToCamelKey data) now) ∧
    fetchAssignmentData st now (.error e) sf = st ∧
    fetchAssignmentData st now (.ok none) sf = st :=
  fun _ _ _ _ _ => ⟨rfl, rfl, rfl, rfl⟩

/-- Counterexample for C1 as stated: with the committed assignment titled
Old, a successful assignment fetch of a row titled New followed by a failed
batch fetch changes the assignment record visible to observers. -/
theorem refresh_partial_commit_counterexample :
    ((fetchAssignmentData pageStateExample (str "T9")
        (.ok (some assignmentRowNew)) (.error ())).assignment.map
          fun r => getStr r (str "title"))
      ≠ (pageStateExample.assignment.map fun r => getStr r (str "title")) := by
  decide

/-- C2 (corrected): `handleSubmitFiles` performs no empty-upload check: with
zero files it issues exactly one insert whose `file_count` is 0, and on
success prepends the resulting batch to the committed batch list. -/
theorem handleSubmitFiles_empty_no_guard :
    ∀ st : PageState, ∀ aid name id : List Nat, ∀ t : Nat,
    (handleSubmitFiles st aid 0 name
        (.ok (insertedRow (submissionPayload aid name 0) id t))).inserts
      = [submissionPayload aid name 0] ∧
    getNum (submissionPayload aid name 0) (str "file_count") = some 0 ∧
    (handleSubmitFiles st aid 0 name
        (.ok (insertedRow (submissionPayload aid name 0) id t))).state.submissions
      = toBatch (insertedRow (submissionPayload aid name 0) id t) :: st.submissions := by
  intro st aid name id t
  refine ⟨rfl, ?_, rfl⟩
  have h1 : str "assignment_id" ≠ str "file_count" := by decide
  have h2 : str "batch_name" ≠ str "file_count" := by decide
  rw [submissionPayload_eq]
  simp [getNum, getVal, h1, h2]

/-- Counterexample for C2 as stated: submitting an empty file list issues an
insert (with `file_count` 0) and changes the batch list — no precondition
failure occurs. -/
theorem handleSubmitFiles_empty_counterexample :
    ((handleSubmitFiles { assignment := none, submissions := [] } (str "a1") 0 (str "X")
        (.ok (insertedRow (submissionPayload (str "a1") (str "X") 0) (str "7") 5))).inserts.length
      = 1) ∧
    ((handleSubmitFiles { assignment := none, submissions := [] } (str "a1") 0 (str "X")
        (.ok (insertedRow (submissionPayload (str "a1") (str "X") 0) (str "7") 5))).state.submissions
      ≠ ([] : List SubmissionBatch)) := by
  constructor
  · rfl
  · decide

/-- C4: every class edit sends the upper-cased code to the persistence
layer, whatever the letter case of the input, and the stored row re-read
after the update carries that upper-cased code; for example `cs101` becomes
`CS101`. -/
theorem class_code_uppercased :
    ∀ fd : ClassForm, ∀ now : List Nat, ∀ row : Rec,
    getVal (classUpdatePayload fd now) (str "code")
      = some (.vStr (upperString fd.code)) ∧
    (str "code" ∈ keys row →
      getVal ((EditClassDialog.handleSubmit fd row now true).row) (str "code")
        = some (.vStr (upperString fd.code))) ∧
    upperString (str "cs101") = str "CS101" := by
  intro fd now row
  have h1 : str "title" ≠ str "code" := by decide
  have h2 : str "description" ≠ str "code" := by decide
  have h3 : str "department" ≠ str "code" := by decide
  have hget : getVal (classUpdatePayload fd now) (str "code")
      = some (.vStr (upperString fd.code)) := by
    simp [classUpdatePayload, getVal, h1, h2, h3]
  refine ⟨hget, fun hk => ?_, by decide⟩
  show getVal (mergeUpdate row (classUpdatePayload fd now)) (str "code") = _
  exact getVal_mergeUpdate_some hget row hk

/-- Witness for C4: the update built from the concrete form with code
`cs101`, applied to the concrete class row, stores and re-reads `CS101`. -/
theorem class_code_uppercased_witness :
    str "code" ∈ keys classRowExample ∧
    getVal ((EditClassDialog.handleSubmit classFormExample classRowExample
        (str "T1") true).row) (str "code")
      = some (.vStr (upperString (str "cs101"))) :=
  ⟨by decide,
   (class_code_uppercased classFormExample (str "T1") classRowExample).2.1 (by decide)⟩

/-- C5 (corrected): the submissions query returns the store's rows sorted
newest-first by creation time (for strictly increasing creation times
t1 < t2 < t3 the batches come back as [t3, t2, t1]), it is a permutation of
the store, and a newly created batch is prepended at the head of the
committed list — but rows tied on creation time keep the store's order; no
identifier tiebreaker is applied. -/
theorem listBatches_newest_first :
    ∀ store : List Rec,
    List.Sorted submissionOrder (submissionsQuery store) ∧
    List.Perm (submissionsQuery store) store ∧
    (∀ r1 r2 r3 : Rec, createdAtOf r1 < createdAtOf r2 →
      createdAtOf r2 < createdAtOf r3 →
      listBatches [r1, r2, r3] = [toBatch r3, toBatch r2, toBatch r1]) ∧
    (∀ st : PageState, ∀ aid name : List Nat, ∀ files : Nat, ∀ row : Rec,
      (handleSubmitFiles st aid files name (.ok row)).state.submissions
        = toBatch row :: st.submissions) := by
  intro store
  refine ⟨List.sorted_insertionSort submissionOrder store,
    List.perm_insertionSort submissionOrder store, ?_, fun _ _ _ _ _ => rfl⟩
  intro r1 r2 r3 h12 h23
  have n32 : ¬ submissionOrder r2 r3 := by
    simp only [submissionOrder, not_le]
    omega
  have n31 : ¬ submissionOrder r1 r3 := by
    simp only [submissionOrder, not_le]
    omega
  have n21 : ¬ submissionOrder r1 r2 := by
    simp only [submissionOrder, not_le]
    omega
  simp [listBatches, submissionsQuery, List.insertionSort, List.orderedInsert,
    n32, n31, n21]

/-- Witness for C5: three concrete rows created at times 1 < 2 < 3 come back
newest first. -/
theorem listBatches_newest_first_witness :
    createdAtOf submissionRowT1 < createdAtOf submissionRowT2 ∧
    createdAtOf submissionRowT2 < createdAtOf submissionRowT3 ∧
    listBatches [submissionRowT1, submissionRowT2, submissionRowT3]
      = [toBatch submissionRowT3, toBatch submissionRowT2, toBatch submissionRowT1] :=
  ⟨by decide, by decide,
   (listBatches_newest_first []).2.2.1 submissionRowT1 submissionRowT2 submissionRowT3
     (by decide) (by decide)⟩

/-- Counterexample for C5 as stated: two stores holding the same two rows,
tied on creation time, in opposite physical orders produce different batch
orders — the ordering of ties is not determined by the batch identifiers. -/
theorem listBatches_tie_counterexample :
    createdAtOf submissionRowA = createdAtOf submissionRowB ∧
    listBatches [submissionRowA, submissionRowB]
      ≠ listBatches [submissionRowB, submissionRowA] := by
  exact ⟨by decide, by decide⟩

/-- C6 (corrected): the criteria-edit path passes the refreshed row converted
to canonical form to its listener (its keys all camel-cased when the row's
keys are schema snake-cased keys) — but the class-edit path passes the raw
persisted row to `onClassUpdated` without converting it. -/
theorem updateRecord_return_value :
    ∀ crit now : List Nat, ∀ row : Rec, ∀ fd : ClassForm,
    (EditGradingCriteriaDialog.handleSubmit crit row now true).listener
      = some (transformFields snakeToCamelKey
          (mergeUpdate row (gradingCriteriaPayload crit now))) ∧
    (EditClassDialog.handleSubmit fd row now true).listener
      = some (mergeUpdate row (classUpdatePayload fd now)) ∧
    (validKeysFields validSnakeKey (mergeUpdate row (gradingCriteriaPayload crit now)) = true →
      ∀ k ∈ keys ((EditGradingCriteriaDialog.handleSubmit crit row now true).listener.getD []),
        validCamelKey k = true) := by
  intro crit now row fd
  refine ⟨rfl, rfl, fun hvalid k hk => ?_⟩
  have hkeys :
      keys ((EditGradingCriteriaDialog.handleSubmit crit row now true).listener.getD [])
        = (keys (mergeUpdate row (gradingCriteriaPayload crit now))).map snakeToCamelKey := by
    show keys (transformFields snakeToCamelKey
      (mergeUpdate row (gradingCriteriaPayload crit now))) = _
    exact keys_transformFields snakeToCamelKey _
  rw [hkeys, List.mem_map] at hk
  obtain ⟨k0, hk0, rfl⟩ := hk
  exact validCamelKey_snakeToCamelKey k0 (validKeysFields_keys hvalid k0 hk0)

/-- Witness for C6: on the concrete assignment row, every key the criteria
dialog publishes to its listener is camel-cased. -/
theorem updateRecord_return_value_witness :
    validKeysFields validSnakeKey
      (mergeUpdate assignmentRowExample
        (gradingCriteriaPayload (str "New rubric") (str "T1"))) = true ∧
    validCamelKey (str "updatedAt") = true :=
  ⟨by decide,
   (updateRecord_return_value (str "New rubric") (str "T1") assignmentRowExample
       classFormExample).2.2 (by decide) (str "updatedAt") (by decide)⟩

/-- Counterexample for C6 as stated: the class-edit path returns the raw
persisted row (with key `updated_at`) to its listener, not the refreshed
record converted to canonical form (whose key would be `updatedAt`). -/
theorem class_edit_listener_counterexample :
    (EditClassDialog.handleSubmit classFormExample classRowExample (str "T1") true).listener
      ≠ some (transformFields snakeToCamelKey
          ((EditClassDialog.handleSubmit classFormExample classRowExample
            (str "T1") true).row)) := by
  intro h
  exact absurd (congrArg (Option.map keys) h) (by decide)

/-- C7: the grading-criteria edit writes exactly the two fields
`grading_criteria` and `updated_at`: every other column of the row is
unchanged by the update, `updated_at` is refreshed to the current time in
the same update, and the general assignment edit path (modelled from the
spec) never carries a `grading_criteria` field. -/
theorem gradingCriteria_update_frame :
    ∀ crit now : List Nat, ∀ row : Rec,
    keys (gradingCriteriaPayload crit now)
      = [str "grading_criteria", str "updated_at"] ∧
    (∀ k : List Nat, k ≠ str "grading_criteria" → k ≠ str "updated_at" →
      getVal ((EditGradingCriteriaDialog.handleSubmit crit row now true).row) k
        = getVal row k) ∧
    (str "updated_at" ∈ keys row →
      getVal ((EditGradingCriteriaDialog.handleSubmit crit row now true).row)
          (str "updated_at")
        = some (.vStr now)) ∧
    (∀ title description ty : List Nat, ∀ points : Nat, ∀ now2 : List Nat,
      str "grading_criteria" ∉ keys (editAssignmentPayload title description ty points now2)) := by
  intro crit now row
  have hc : str "grading_criteria" ≠ str "updated_at" := by decide
  refine ⟨rfl, fun k hk1 hk2 => ?_, fun hmem => ?_, ?_⟩
  · show getVal (mergeUpdate row (gradingCriteriaPayload crit now)) k = getVal row k
    have hnone : getVal (gradingCriteriaPayload crit now) k = none := by
      rw [gradingCriteriaPayload_eq]
      have hne1 : str "grading_criteria" ≠ k := fun h => hk1 h.symm
      have hne2 : str "updated_at" ≠ k := fun h => hk2 h.symm
      simp [getVal, hne1, hne2]
    exact getVal_mergeUpdate_none hnone row
  · show getVal (mergeUpdate row (gradingCriteriaPayload crit now)) (str "updated_at")
      = some (.vStr now)
    have hsome : getVal (gradingCriteriaPayload crit now) (str "updated_at")
        = some (.vStr now) := by
      rw [gradingCriteriaPayload_eq]
      simp [getVal, hc]
    exact getVal_mergeUpdate_some hsome row hmem
  · intro title description ty points now2
    have hkeys : keys (editAssignmentPayload title description ty points now2)
        = [str "title", str "description", str "type", str "points", str "updated_at"] :=
      rfl
    rw [hkeys]
    decide

/-- Witness for C7: on the concrete assignment row, the criteria edit leaves
`points` untouched and refreshes `updated_at` to the new time. -/
theorem gradingCriteria_update_frame_witness :
    getVal ((EditGradingCriteriaDialog.handleSubmit (str "New rubric")
        assignmentRowExample (str "T1") true).row) (str "points")
      = getVal assignmentRowExample (str "points") ∧
    getVal ((EditGradingCriteriaDialog.handleSubmit (str "New rubric")
        assignmentRowExample (str "T1") true).row) (str "updated_at")
      = some (.vStr (str "T1")) :=
  ⟨(gradingCriteria_update_frame (str "New rubric") (str "T1")
      assignmentRowExample).2.1 (str "points") (by decide) (by decide),
   (gradingCriteria_update_frame (str "New rubric") (str "T1")
      assignmentRowExample).2.2.1 (by decide)⟩

/-- C8: creating a batch from 3 uploaded files with an empty display name
yields a batch with status `grading`, `fileCount` 3 and a non-empty display
name synthesized from the store-assigned identifier, prepended to the
committed list. -/
theorem createBatch_defaults :
    ∀ st : PageState, ∀ aid id : List Nat, ∀ t : Nat,
    (handleSubmitFiles st aid 3 []
        (.ok (insertedRow (submissionPayload aid [] 3) id t))).state.submissions
      = toBatch (insertedRow (submissionPayload aid [] 3) id t) :: st.submissions ∧
    (toBatch (insertedRow (submissionPayload aid [] 3) id t)).status
      = str "grading" ∧
    (toBatch (insertedRow (submissionPayload aid [] 3) id t)).fileCount = 3 ∧
    (toBatch (insertedRow (submissionPayload aid [] 3) id t)).name
      = str "Batch " ++ id ∧
    (toBatch (insertedRow (submissionPayload aid [] 3) id t)).name ≠ [] := by
  intro st aid id t
  have hname : (toBatch (insertedRow (submissionPayload aid [] 3) id t)).name
      = str "Batch " ++ id := rfl
  refine ⟨rfl, rfl, rfl, hname, ?_⟩
  rw [hname]
  intro h
  have hlen := congrArg List.length h
  have h6 : (str "Batch ").length = 6 := by decide
  simp only [List.length_append, List.length_nil, h6] at hlen
  omega

/-- C9: a class edit payload that fails schema validation (hypothesis: the
schema reports an error) issues no call to the persistence boundary, leaves
the persisted row unchanged and never invokes the update listener; the
validation itself is a pure function of the payload. -/
theorem validation_failure_no_mutation :
    ∀ raw : RawClassForm, ∀ row : Rec, ∀ now : List Nat, ∀ updateOk : Bool,
    ∀ e : List (List Nat), editClassSchema raw = .error e →
    (editClassFlow raw row now updateOk).calls = [] ∧
    (editClassFlow raw row now updateOk).row = row ∧
    (editClassFlow raw row now updateOk).listener = none := by
  intro raw row now updateOk e he
  simp [editClassFlow, he]

/-- Witness for C9: the concrete form whose title has length 2 fails
validation on the title field, and the flow leaves everything untouched. -/
theorem validation_failure_no_mutation_witness :
    editClassSchema rawShortTitleExample = .error [str "title"] ∧
    (editClassFlow rawShortTitleExample classRowExample (str "T1") true).calls = [] ∧
    (editClassFlow rawShortTitleExample classRowExample (str "T1") true).row
      = classRowExample ∧
    (editClassFlow rawShortTitleExample classRowExample (str "T1") true).listener
      = none :=
  ⟨rfl,
   validation_failure_no_mutation rawShortTitleExample classRowExample (str "T1") true
     [str "title"] rfl⟩

end ProfCelerate
